import Mathlib

/-!
Verification of the data-preparation and aggregation core of the Big Mac
Index dashboard (`src/app.py`) against its specification.

The pandas pipeline is shallowly embedded: a CSV cell is either an NA
marker or raw text; `pd.to_datetime(errors=coerce)` and
`pd.to_numeric(errors=coerce)` become partial parsers returning `Option`;
a dataframe is a `List` of typed row structures; `dropna(subset=...)`,
boolean-mask filtering, `merge(how=left)`, `mean`, `max` and `idxmax`
become the corresponding list functions. Numbers are `ℚ`.
-/

namespace BigMac

/-- A raw CSV cell as `pd.read_csv` delivers it: either NA (an empty field or
one of pandas' default NA markers becomes NaN) or the raw text. -/
inductive Field where
  | na : Field
  | str (s : String) : Field
deriving DecidableEq, Repr

/-- Pandas' default NA markers (the ones relevant here: empty field, NA, NaN,
N/A, null). `pd.read_csv` turns such cells into NaN. -/
def isNAString (s : String) : Bool :=
  s = "" || s = "NA" || s = "NaN" || s = "N/A" || s = "null"

/-- Reading a string-typed column cell: NA markers become null, other text is
kept as-is. -/
def readStr : Field → Option String
  | Field.na => none
  | Field.str s => if isNAString s then none else some s

/-- A calendar date, as `pd.to_datetime` produces (year, month, day). -/
structure Date where
  year : Nat
  month : Nat
  day : Nat
deriving DecidableEq, Repr

/-- Gregorian leap year. -/
def isLeap (y : Nat) : Bool :=
  (y % 4 = 0 && y % 100 ≠ 0) || y % 400 = 0

/-- Days in a month of a given year. -/
def daysInMonth (y m : Nat) : Nat :=
  if m = 2 then (if isLeap y then 29 else 28)
  else if m = 4 || m = 6 || m = 9 || m = 11 then 30
  else 31

/-- A valid calendar date: month in 1..12, day in 1..days of that month. -/
def dateValid (d : Date) : Bool :=
  1 ≤ d.month && d.month ≤ 12 && 1 ≤ d.day && d.day ≤ daysInMonth d.year d.month

/-- Split a character list at a separator character. -/
def splitOnChar (c : Char) : List Char → List (List Char)
  | [] => [[]]
  | x :: xs =>
    let r := splitOnChar c xs
    if x = c then [] :: r
    else
      match r with
      | [] => [[x]]
      | h :: t => (x :: h) :: t

/-- Whether every character of the list is a decimal digit. -/
def allDigits (l : List Char) : Bool :=
  l ≠ [] && l.all fun ch => ch.isDigit

/-- Decimal value of a digit list. -/
def digitsVal (l : List Char) : Nat :=
  l.foldl (fun a ch => a * 10 + (ch.toNat - 48)) 0

/-- The numeric parser behind `pd.to_numeric(errors=coerce)`: an optional
minus sign, digits, and an optional fractional part. Anything else fails. -/
def parseRat (s : String) : Option ℚ :=
  let cs := s.data
  let (neg, cs) :=
    match cs with
    | '-' :: rest => (true, rest)
    | _ => (false, cs)
  match splitOnChar '.' cs with
  | [a] =>
    if allDigits a then
      some (if neg then -(digitsVal a : ℚ) else (digitsVal a : ℚ))
    else none
  | [a, b] =>
    if allDigits a && allDigits b then
      let v : ℚ := (digitsVal a : ℚ) + (digitsVal b : ℚ) / ((10 : ℚ) ^ b.length)
      some (if neg then -v else v)
    else none
  | _ => none

/-- The date parser behind `pd.to_datetime(errors=coerce)`: ISO
`YYYY-MM-DD`; a string denoting no valid calendar date fails to parse. -/
def parseDate (s : String) : Option Date :=
  match splitOnChar '-' s.data with
  | [y, m, d] =>
    if allDigits y && allDigits m && allDigits d && y.length = 4 && m.length = 2 && d.length = 2 then
      let dt : Date := ⟨digitsVal y, digitsVal m, digitsVal d⟩
      if dateValid dt then some dt else none
    else none
  | _ => none

/-- Applying `pd.to_datetime(col, errors=coerce)` to one cell: NA stays null, an
unparseable string becomes null (NaT), a parseable one becomes a date. -/
def to_datetime : Field → Option Date
  | Field.na => none
  | Field.str s => parseDate s

/-- Applying `pd.to_numeric(col, errors=coerce)` to one cell: NA stays null, an
unparseable string becomes null (NaN), a parseable one becomes a number. -/
def to_numeric : Field → Option ℚ
  | Field.na => none
  | Field.str s => parseRat s

/-- One row of the primary CSV as read by `pd.read_csv` in `load_data`
(src/app.py line 12): the nineteen columns, each a raw cell. -/
structure RawRow where
  date : Field
  iso_a3 : Field
  name : Field
  currency_code : Field
  local_price : Field
  dollar_ex : Field
  dollar_price : Field
  USD_raw : Field
  EUR_raw : Field
  GBP_raw : Field
  JPY_raw : Field
  CNY_raw : Field
  GDP_bigmac : Field
  adj_price : Field
  USD_adjusted : Field
  EUR_adjusted : Field
  GBP_adjusted : Field
  JPY_adjusted : Field
  CNY_adjusted : Field
deriving DecidableEq, Repr

/-- A typed row after `load_data`'s column conversions: the date column
parsed, the fifteen numeric columns coerced, string columns kept. -/
structure Row where
  date : Option Date
  iso_a3 : Option String
  name : Option String
  currency_code : Option String
  local_price : Option ℚ
  dollar_ex : Option ℚ
  dollar_price : Option ℚ
  USD_raw : Option ℚ
  EUR_raw : Option ℚ
  GBP_raw : Option ℚ
  JPY_raw : Option ℚ
  CNY_raw : Option ℚ
  GDP_bigmac : Option ℚ
  adj_price : Option ℚ
  USD_adjusted : Option ℚ
  EUR_adjusted : Option ℚ
  GBP_adjusted : Option ℚ
  JPY_adjusted : Option ℚ
  CNY_adjusted : Option ℚ
deriving DecidableEq, Repr

/-- The per-row effect of src/app.py lines 13-18: `to_datetime` on `date`
and `to_numeric` on each of the fifteen columns of `numeric_cols`, each
column converted independently; the string columns pass through the read. -/
def parseRow (r : RawRow) : Row where
  date := to_datetime r.date
  iso_a3 := readStr r.iso_a3
  name := readStr r.name
  currency_code := readStr r.currency_code
  local_price := to_numeric r.local_price
  dollar_ex := to_numeric r.dollar_ex
  dollar_price := to_numeric r.dollar_price
  USD_raw := to_numeric r.USD_raw
  EUR_raw := to_numeric r.EUR_raw
  GBP_raw := to_numeric r.GBP_raw
  JPY_raw := to_numeric r.JPY_raw
  CNY_raw := to_numeric r.CNY_raw
  GDP_bigmac := to_numeric r.GDP_bigmac
  adj_price := to_numeric r.adj_price
  USD_adjusted := to_numeric r.USD_adjusted
  EUR_adjusted := to_numeric r.EUR_adjusted
  GBP_adjusted := to_numeric r.GBP_adjusted
  JPY_adjusted := to_numeric r.JPY_adjusted
  CNY_adjusted := to_numeric r.CNY_adjusted

/-- Whether the named column of a row is null, as `df.dropna(subset=...)`
inspects it. Only the four names used at src/app.py line 19 matter. -/
def isNullAt (r : Row) (c : String) : Bool :=
  if c = "date" then r.date.isNone
  else if c = "iso_a3" then r.iso_a3.isNone
  else if c = "name" then r.name.isNone
  else if c = "dollar_price" then r.dollar_price.isNone
  else false

/-- Semantics of `df.dropna(subset=cols)`: keep the rows that are non-null in every
listed column. -/
def dropna (cols : List String) (df : List Row) : List Row :=
  df.filter fun r => cols.all fun c => !(isNullAt r c)

/-- The loader `load_data` (src/app.py lines 11-20): read the CSV, parse the date
column, coerce the fifteen numeric columns, and drop rows null in `date`,
`iso_a3`, `name` or `dollar_price`. -/
def load_data (csv : List RawRow) : List Row :=
  dropna ["date", "iso_a3", "name", "dollar_price"] (csv.map parseRow)

/-- All four required fields of a row are present: the row-level
characterisation of `dropna` on `date`, `iso_a3`, `name`, `dollar_price`. -/
def requiredPresent (r : Row) : Bool :=
  r.date.isSome && r.iso_a3.isSome && r.name.isSome && r.dollar_price.isSome

/-- One row of `ppp.csv` after the rename at src/app.py line 26: key columns
`name` and `year` (possibly NA) and the `PPP` value column. -/
structure PPPRow where
  name : Option String
  year : Option Nat
  PPP : Option ℚ
deriving DecidableEq, Repr

/-- A merged row: the primary row with its derived `year` column and the PPP
value joined in (null when unmatched). -/
structure MRow where
  row : Row
  year : Nat
  PPP : Option ℚ
deriving DecidableEq, Repr

/-- The year `df['date'].dt.year` of one row (src/app.py line 25); the rows reaching
the merge come from `load_data`, so their date is present. -/
def rowYear (r : Row) : Nat :=
  match r.date with
  | some d => d.year
  | none => 0

/-- Key equality as `pd.merge` applies it: a null key matches nothing
(NaN never equals NaN). -/
def keyEq {α : Type} [DecidableEq α] : Option α → Option α → Bool
  | some x, some y => x = y
  | _, _ => false

/-- The PPP rows matching a primary row's `(name, year)` key. -/
def pppMatches (ppp : List PPPRow) (r : Row) : List PPPRow :=
  ppp.filter fun p => keyEq p.name r.name && keyEq p.year (some (rowYear r))

/-- The merged rows one primary row contributes: one per matching PPP row,
or a single row with a null PPP value when nothing matches. -/
def emitRow (ppp : List PPPRow) (r : Row) : List MRow :=
  match pppMatches ppp r with
  | [] => [⟨r, rowYear r, none⟩]
  | ms => ms.map fun p => ⟨r, rowYear r, p.PPP⟩

/-- Semantics of `pd.merge(df, df_ppp, on=[name, year], how=left)` (src/app.py line 29):
each primary row is emitted once per matching PPP row, or once with a null
PPP value when no PPP row matches; primary row order is preserved. -/
def merge (df : List Row) (ppp : List PPPRow) : List MRow :=
  df.flatMap (emitRow ppp)

/-- How often a primary row occurs among the merged rows. -/
def countRow (ms : List MRow) (r : Row) : Nat :=
  (ms.filter fun m => m.row = r).length

/-- The PPP table has pairwise distinct `(name, year)` keys. -/
def pppKeysUnique (ppp : List PPPRow) : Prop :=
  ppp.Pairwise fun p q => ¬(keyEq p.name q.name && keyEq p.year q.year)

instance (ppp : List PPPRow) : Decidable (pppKeysUnique ppp) := by
  unfold pppKeysUnique; infer_instance

/-- Zero padding to two digits, as `strftime` formats month and day. -/
def pad2 (n : Nat) : String :=
  if n < 10 then "0" ++ toString n else toString n

/-- Zero padding to four digits, as `strftime` formats the year. -/
def pad4 (n : Nat) : String :=
  if n < 10 then "000" ++ toString n
  else if n < 100 then "00" ++ toString n
  else if n < 1000 then "0" ++ toString n
  else toString n

/-- Formatting a date with `strftime(yyyy-mm-dd)`. -/
def formatDate (d : Date) : String :=
  pad4 d.year ++ "-" ++ pad2 d.month ++ "-" ++ pad2 d.day

/-- One row's contribution to the mask
`df['date'].dt.strftime(...) == selected_date` (src/app.py lines 38 and
120): a null date (NaT) formats to NaN and matches no string. -/
def dateMatches (r : Row) (selected_date : String) : Bool :=
  match r.date with
  | some d => formatDate d = selected_date
  | none => false

/-- Indexing `df[mask]` with the date mask: boolean-mask indexing, which yields a new
frame (a copy) holding the selected rows. -/
def filterByDate (df : List Row) (selected_date : String) : List Row :=
  df.filter fun r => dateMatches r selected_date

/-- One row's contribution to `filtered_df['name'].isin(selected_countries)`
(src/app.py line 122): a null name is in no list. -/
def nameIn (r : Row) (cs : List String) : Bool :=
  match r.name with
  | some n => n ∈ cs
  | none => false

/-- The subset the metrics block works on (src/app.py lines 120-122): the
date slice of `df`, country-filtered only when the selection is non-empty
(an empty Python list is falsy, so `if selected_countries` skips the
filter). -/
def metricsSubset (df : List Row) (selected_date : String) (cs : List String) : List Row :=
  let f := filterByDate df selected_date
  if cs.isEmpty then f else f.filter fun r => nameIn r cs

/-- Round-half-even to an integer, the rounding `Series.round` uses. -/
def roundHalfEven (q : ℚ) : ℤ :=
  let f := ⌊q⌋
  let r := q - f
  if r < 1/2 then f
  else if 1/2 < r then f + 1
  else if Even f then f else f + 1

/-- Semantics of `Series.round(2)`: round to two decimal places. -/
def round2 (q : ℚ) : ℚ :=
  (roundHalfEven (q * 100) : ℚ) / 100

/-- Map `round2` over an optional cell. -/
def roundCell (c : Option ℚ) : Option ℚ :=
  c.map round2

/-- The column assignments at src/app.py lines 39-40: `dollar_price` and
`local_price` of the (copied) date slice replaced by their rounded values,
producing the left-column display view. -/
def roundPrices (df : List Row) : List Row :=
  df.map fun r => { r with dollar_price := roundCell r.dollar_price,
                           local_price := roundCell r.local_price }

/-- The metrics the right column computes (src/app.py lines 161-164),
named as the variables in the code. -/
structure Metrics where
  avg_price : Option ℚ
  avg_gdp : Option ℚ
  most_expensive : Option String
  most_expensive_price : Option ℚ
deriving DecidableEq, Repr

/-- Semantics of `Series.mean()` with pandas' default NaN skipping: the mean of the
present values, NaN (null) when none are present. -/
def meanQ (l : List (Option ℚ)) : Option ℚ :=
  let vs := l.filterMap id
  if vs.isEmpty then none else some (vs.sum / vs.length)

/-- Semantics of `Series.max()` with NaN skipping: the greatest present value. -/
def maxQ {α : Type} (f : α → Option ℚ) : List α → Option ℚ
  | [] => none
  | x :: xs =>
    match f x, maxQ f xs with
    | none, m => m
    | some q, none => some q
    | some q, some m => some (max q m)

/-- Semantics of `Series.idxmax()` followed by `.loc`: the first element attaining the
maximum of the present values (pandas returns the first row label at which
the maximum occurs), null when no value is present. -/
def argmaxQ {α : Type} (f : α → Option ℚ) : List α → Option α
  | [] => none
  | x :: xs =>
    match f x, argmaxQ f xs with
    | none, m => m
    | some _, none => some x
    | some q, some y =>
      match f y with
      | some qy => if q < qy then some y else some x
      | none => some x

/-- The metrics block (src/app.py lines 159-172): nothing is computed for an
empty subset (the `filtered_df.empty` guard); otherwise the mean dollar
price, mean GDP per capita, and the name and price of the row `idxmax`
selects. -/
def summary_statistics (rs : List Row) : Option Metrics :=
  if rs.isEmpty then none
  else some
    { avg_price := meanQ (rs.map fun r => r.dollar_price)
      avg_gdp := meanQ (rs.map fun r => r.GDP_bigmac)
      most_expensive := (argmaxQ (fun r => r.dollar_price) rs).bind fun r => r.name
      most_expensive_price := maxQ (fun r => r.dollar_price) rs }

/-- One user interaction over the session state, with the state passed
explicitly: lines 38-40 build the rounded left-column view from a copy of
the date slice (boolean-mask indexing copies, so the column assignment
touches only the copy), lines 120-122 rebuild the metrics subset from `df`,
and lines 159-172 compute the metrics. The loaded and merged tables are
returned as the post-state. -/
def interaction (df : List Row) (merged : List MRow) (selected_date : String)
    (cs : List String) :
    (List Row × List MRow) × (List Row × List Row × Option Metrics) :=
  let view := roundPrices (filterByDate df selected_date)
  let msub := metricsSubset df selected_date cs
  ((df, merged), (view, msub, summary_statistics msub))

/-- The loader `load_data` under `st.cache_data` (src/app.py line 10): the cache pairs
the input with the computed table; a hit returns the cached table, a miss
computes, stores and returns. -/
def load_data_cached (cache : Option (List RawRow × List Row)) (csv : List RawRow) :
    List Row × Option (List RawRow × List Row) :=
  match cache with
  | some (k, v) => if k = csv then (v, cache) else (load_data csv, some (csv, load_data csv))
  | none => (load_data csv, some (csv, load_data csv))

/-- The adjustment gap of a row, `|usd_adjusted_index - usd_raw_index|`,
present only when both operands are. -/
def adjustmentGap (r : Row) : Option ℚ :=
  match r.USD_adjusted, r.USD_raw with
  | some a, some b => some |a - b|
  | _, _ => none

/-- Modelled from the spec: the `Metrics` record of the
`summary_statistics(subset) -> Metrics` contract in section 4.3. The
adjustment-gap fields are not computed anywhere in src/app.py (the metrics
block at lines 159-172 computes only the first four quantities); the spec
describes them for the repository's other dashboard revisions, which are
not under src/. -/
structure MetricsSpec where
  mean_price : Option ℚ
  mean_gdp_per_capita : Option ℚ
  max_price_country : Option String
  max_price_value : Option ℚ
  max_adjustment_gap_country : Option String
  max_adjustment_gap_value : Option ℚ
deriving DecidableEq, Repr

/-- Modelled from the spec: `summary_statistics` per section 4.3 — empty
subsets are rejected (the emptiness precondition), `mean_price` and
`mean_gdp_per_capita` are subset means, `max_price_*` is the argmax of
`dollar_price` with first-occurrence tie-break, and `max_adjustment_gap_*`
is the argmax of `|usd_adjusted_index - usd_raw_index|` with the same
tie-break, null when either operand is null for all rows. The adjustment-gap
computation is absent from src/app.py and is taken from the spec's words. -/
def summary_statistics_spec (rs : List Row) : Option MetricsSpec :=
  if rs.isEmpty then none
  else some
    { mean_price := meanQ (rs.map fun r => r.dollar_price)
      mean_gdp_per_capita := meanQ (rs.map fun r => r.GDP_bigmac)
      max_price_country := (argmaxQ (fun r => r.dollar_price) rs).bind fun r => r.name
      max_price_value := maxQ (fun r => r.dollar_price) rs
      max_adjustment_gap_country := (argmaxQ adjustmentGap rs).bind fun r => r.name
      max_adjustment_gap_value := maxQ adjustmentGap rs }

/-- Build a raw CSV row from the five cells the claims exercise; the other
fourteen columns are left NA. -/
def mkRaw (dt iso nm dp gdp : Field) : RawRow :=
  ⟨dt, iso, nm, Field.na, Field.na, Field.na, dp, Field.na, Field.na, Field.na,
   Field.na, Field.na, gdp, Field.na, Field.na, Field.na, Field.na, Field.na, Field.na⟩

/-- A raw row with all required cells present and parseable. -/
def rawOK : RawRow :=
  mkRaw (Field.str "2020-07-01") (Field.str "USA") (Field.str "United States")
    (Field.str "4") (Field.str "60000")

/-- A raw row whose date cell fails to parse. -/
def rawBadDate : RawRow :=
  mkRaw (Field.str "not-a-date") (Field.str "CAN") (Field.str "Canada")
    (Field.str "5") Field.na

/-- A raw row whose `GDP_bigmac` cell fails numeric coercion while all
required cells are fine. -/
def rawBadGDP : RawRow :=
  mkRaw (Field.str "2020-07-01") (Field.str "CHE") (Field.str "Switzerland")
    (Field.str "7") (Field.str "abc")

/-- A raw row whose `dollar_price` cell fails numeric coercion. -/
def rawBadPrice : RawRow :=
  mkRaw (Field.str "2020-07-01") (Field.str "CHN") (Field.str "China")
    (Field.str "abc") Field.na

/-- A raw row whose `iso_a3` cell is present but only two characters long. -/
def rawShortIso : RawRow :=
  mkRaw (Field.str "2020-07-01") (Field.str "US") (Field.str "United States")
    (Field.str "4") Field.na

/-- Build a loaded row from a country name, a date and the four numeric cells
the claims exercise; the other columns are null. -/
def mkRow (nm : String) (d : Date) (dp gdp raw adj : Option ℚ) : Row :=
  ⟨some d, some "AAA", some nm, none, none, none, dp, raw, none, none,
   none, none, gdp, none, adj, none, none, none, none⟩

/-- Three rows of one date with dollar prices 3, 4 and 5: the aggregate
correctness example of the spec. -/
def c4rows : List Row :=
  [mkRow "CountryA" ⟨2024, 1, 1⟩ (some 3) none none none,
   mkRow "CountryB" ⟨2024, 1, 1⟩ (some 4) none none none,
   mkRow "CountryC" ⟨2024, 1, 1⟩ (some 5) none none none]

/-- Two rows with raw index 100 and adjusted indices 130 and 110: the
adjustment-gap example of the spec. -/
def c5rows : List Row :=
  [mkRow "GapCountryA" ⟨2024, 1, 1⟩ (some 1) none (some 100) (some 130),
   mkRow "GapCountryB" ⟨2024, 1, 1⟩ (some 2) none (some 100) (some 110)]

/-- A one-row loaded table for the join and filtering witnesses. -/
def usRows : List Row :=
  [mkRow "United States" ⟨2020, 7, 1⟩ (some 4) none none none]

/-- A two-row PPP table with distinct keys, one matching `usRows`. -/
def pppOK : List PPPRow :=
  [⟨some "United States", some 2020, some 1⟩, ⟨some "Germany", some 2020, some 2⟩]

/-! Helper lemmas about the loader -/

/-- The `dropna` column list used by `load_data` checks exactly the four
required fields. -/
theorem all_cols_eq_requiredPresent (r : Row) :
    (["date", "iso_a3", "name", "dollar_price"].all fun c => !(isNullAt r c))
      = requiredPresent r := by
  simp only [List.all_cons, List.all_nil, isNullAt, requiredPresent]
  cases r.date <;> cases r.iso_a3 <;> cases r.name <;> cases r.dollar_price <;> rfl

/-- Unfolded, `load_data` is pointwise: parse every row, keep those with the four
required fields present. -/
theorem load_data_eq_filter (csv : List RawRow) :
    load_data csv = (csv.map parseRow).filter fun r => requiredPresent r := by
  unfold load_data dropna
  exact List.filter_congr fun r _ => all_cols_eq_requiredPresent r

/-- A date cell that fails to parse leaves the row without a required
field. -/
theorem requiredPresent_false_of_date_none (rr : RawRow)
    (h : to_datetime rr.date = none) : requiredPresent (parseRow rr) = false := by
  simp [requiredPresent, parseRow, h]

/-- The date parser only accepts valid calendar dates. -/
theorem parseDate_valid {s : String} {d : Date} (h : parseDate s = some d) :
    dateValid d = true := by
  unfold parseDate at h
  split at h
  next y m dd _ =>
    split at h
    next =>
      dsimp only at h
      split at h
      next hv => exact Option.some.inj h ▸ hv
      next => exact absurd h (by simp)
    next => exact absurd h (by simp)
  next => exact absurd h (by simp)

/-- A string column value that survives the read is not the empty string. -/
theorem readStr_ne_empty {f : Field} {s : String} (h : readStr f = some s) :
    s ≠ "" := by
  cases f with
  | na => exact absurd h (by simp [readStr])
  | str t =>
    by_cases hna : isNAString t = true
    · simp [readStr, hna] at h
    · simp [readStr, hna] at h
      subst h
      intro he
      exact hna (by simp [isNAString, he])

/-! Helper lemmas about the aggregation primitives -/

/-- Fact: `argmaxQ` skips a leading null value. -/
theorem argmaxQ_cons_none {α : Type} {f : α → Option ℚ} {x : α} {xs : List α}
    (hf : f x = none) : argmaxQ f (x :: xs) = argmaxQ f xs := by
  simp only [argmaxQ, hf]

/-- Fact: `argmaxQ` keeps the head when no later value is present. -/
theorem argmaxQ_cons_some_none {α : Type} {f : α → Option ℚ} {x : α} {xs : List α}
    {q : ℚ} (hf : f x = some q) (h : argmaxQ f xs = none) :
    argmaxQ f (x :: xs) = some x := by
  simp only [argmaxQ, hf, h]

/-- Fact: `argmaxQ` keeps the head unless a strictly larger value occurs later:
ties go to the earlier element. -/
theorem argmaxQ_cons_some_some {α : Type} {f : α → Option ℚ} {x z : α}
    {xs : List α} {q qz : ℚ} (hf : f x = some q) (h : argmaxQ f xs = some z)
    (hz : f z = some qz) :
    argmaxQ f (x :: xs) = if q < qz then some z else some x := by
  simp only [argmaxQ, hf, h, hz]

/-- Fact: `argmaxQ` of a list headed by a present value is not null. -/
theorem argmaxQ_cons_some_ne_none {α : Type} {f : α → Option ℚ} {x : α}
    {xs : List α} {q : ℚ} (hf : f x = some q) : argmaxQ f (x :: xs) ≠ none := by
  cases hm : argmaxQ f xs with
  | none => rw [argmaxQ_cons_some_none hf hm]; simp
  | some z =>
    cases hz : f z with
    | none =>
      simp only [argmaxQ, hf, hm, hz]
      simp
    | some qz =>
      rw [argmaxQ_cons_some_some hf hm hz]
      split <;> simp

/-- Fact: `argmaxQ` returns null exactly when no value is present. -/
theorem argmaxQ_eq_none_iff {α : Type} (f : α → Option ℚ) (l : List α) :
    argmaxQ f l = none ↔ ∀ x ∈ l, f x = none := by
  induction l with
  | nil => simp [argmaxQ]
  | cons x xs ih =>
    constructor
    · intro h y hy
      rcases hfx : f x with _ | q
      · rw [argmaxQ_cons_none hfx] at h
        rcases List.mem_cons.mp hy with rfl | hmem
        · exact hfx
        · exact ih.mp h y hmem
      · exact absurd h (argmaxQ_cons_some_ne_none hfx)
    · intro h
      rcases hfx : f x with _ | q
      · rw [argmaxQ_cons_none hfx]
        exact ih.mpr fun y hy => h y (List.mem_cons_of_mem x hy)
      · exact absurd hfx (by simp [h x (List.mem_cons_self x xs)])

/-- The element `argmaxQ` selects carries a present value, occurs in the
list, bounds every present value from above, and is the first element
where the maximum occurs: every present value strictly before it is
strictly smaller. -/
theorem argmaxQ_spec {α : Type} (f : α → Option ℚ) (l : List α) (y : α)
    (h : argmaxQ f l = some y) :
    ∃ q pre post, l = pre ++ y :: post ∧ f y = some q ∧
      (∀ x ∈ l, ∀ p, f x = some p → p ≤ q) ∧
      (∀ x ∈ pre, ∀ p, f x = some p → p < q) := by
  induction l generalizing y with
  | nil => simp [argmaxQ] at h
  | cons x xs ih =>
    rcases hfx : f x with _ | q
    · rw [argmaxQ_cons_none hfx] at h
      obtain ⟨q, pre, post, hsplit, hfy, hub, hlt⟩ := ih y h
      refine ⟨q, x :: pre, post, by simp [hsplit], hfy, ?_, ?_⟩
      · intro w hw p hp
        rcases List.mem_cons.mp hw with rfl | hw
        · exact absurd hp (by simp [hfx])
        · exact hub w hw p hp
      · intro w hw p hp
        rcases List.mem_cons.mp hw with rfl | hw
        · exact absurd hp (by simp [hfx])
        · exact hlt w hw p hp
    · rcases hm : argmaxQ f xs with _ | z
      · rw [argmaxQ_cons_some_none hfx hm] at h
        obtain rfl := Option.some.inj h
        have hall : ∀ w ∈ xs, f w = none := (argmaxQ_eq_none_iff f xs).mp hm
        refine ⟨q, [], xs, rfl, hfx, ?_, by simp⟩
        intro w hw p hp
        rcases List.mem_cons.mp hw with rfl | hw
        · rw [hfx] at hp; exact le_of_eq (Option.some.inj hp).symm
        · exact absurd hp (by simp [hall w hw])
      · obtain ⟨qz, preZ, postZ, hsplitZ, hfz, hubZ, hltZ⟩ := ih z hm
        rw [argmaxQ_cons_some_some hfx hm hfz] at h
        by_cases hqlt : q < qz
        · rw [if_pos hqlt] at h
          obtain rfl := Option.some.inj h
          refine ⟨qz, x :: preZ, postZ, by simp [hsplitZ], hfz, ?_, ?_⟩
          · intro w hw p hp
            rcases List.mem_cons.mp hw with rfl | hw
            · rw [hfx] at hp
              exact le_of_lt ((Option.some.inj hp) ▸ hqlt)
            · exact hubZ w hw p hp
          · intro w hw p hp
            rcases List.mem_cons.mp hw with rfl | hw
            · rw [hfx] at hp
              exact (Option.some.inj hp) ▸ hqlt
            · exact hltZ w hw p hp
        · rw [if_neg hqlt] at h
          obtain rfl := Option.some.inj h
          refine ⟨q, [], xs, rfl, hfx, ?_, by simp⟩
          intro w hw p hp
          rcases List.mem_cons.mp hw with rfl | hw
          · rw [hfx] at hp; exact le_of_eq (Option.some.inj hp).symm
          · calc p ≤ qz := hubZ w hw p hp
              _ ≤ q := le_of_not_lt hqlt

/-- Fact: `maxQ` skips a leading null value. -/
theorem maxQ_cons_none {α : Type} {f : α → Option ℚ} {x : α} {xs : List α}
    (hf : f x = none) : maxQ f (x :: xs) = maxQ f xs := by
  simp only [maxQ, hf]

/-- Fact: `maxQ` of a head value and an empty tail maximum. -/
theorem maxQ_cons_some_none {α : Type} {f : α → Option ℚ} {x : α} {xs : List α}
    {q : ℚ} (hf : f x = some q) (h : maxQ f xs = none) :
    maxQ f (x :: xs) = some q := by
  simp only [maxQ, hf, h]

/-- Fact: `maxQ` of a head value and a present tail maximum. -/
theorem maxQ_cons_some_some {α : Type} {f : α → Option ℚ} {x : α} {xs : List α}
    {q m : ℚ} (hf : f x = some q) (h : maxQ f xs = some m) :
    maxQ f (x :: xs) = some (max q m) := by
  simp only [maxQ, hf, h]

/-- Fact: `maxQ` is the value carried by the element `argmaxQ` selects. -/
theorem maxQ_eq_bind_argmaxQ {α : Type} (f : α → Option ℚ) (l : List α) :
    maxQ f l = (argmaxQ f l).bind f := by
  induction l with
  | nil => rfl
  | cons x xs ih =>
    rcases hfx : f x with _ | q
    · rw [maxQ_cons_none hfx, argmaxQ_cons_none hfx, ih]
    · rcases hm : argmaxQ f xs with _ | z
      · have hmx : maxQ f xs = none := by rw [ih, hm]; rfl
        rw [maxQ_cons_some_none hfx hmx, argmaxQ_cons_some_none hfx hm]
        simp [hfx]
      · obtain ⟨qz, _, _, _, hfz, _, _⟩ := argmaxQ_spec f xs z hm
        have hmx : maxQ f xs = some qz := by rw [ih, hm]; simp [hfz]
        rw [maxQ_cons_some_some hfx hmx, argmaxQ_cons_some_some hfx hm hfz]
        by_cases hq : q < qz
        · simp [if_pos hq, hfz, max_eq_right (le_of_lt hq)]
        · simp [if_neg hq, hfx, max_eq_left (le_of_not_lt hq)]

/-- A list whose entries are all present loses nothing to `filterMap id`. -/
theorem length_filterMap_id_all_isSome (l : List (Option ℚ))
    (hall : ∀ x ∈ l, x.isSome = true) :
    (l.filterMap id).length = l.length := by
  induction l with
  | nil => rfl
  | cons x xs ih =>
    rcases x with _ | q
    · exact absurd (hall none (List.mem_cons_self none xs)) (by simp)
    · simp [List.filterMap_cons, ih fun y hy => hall y (List.mem_cons_of_mem _ hy)]

/-- When every entry is present, `meanQ` is the sum divided by the
length. -/
theorem meanQ_all_isSome (l : List (Option ℚ)) (hne : l ≠ [])
    (hall : ∀ x ∈ l, x.isSome = true) :
    meanQ l = some ((l.filterMap id).sum / l.length) := by
  have hlen : (l.filterMap id).length = l.length :=
    length_filterMap_id_all_isSome l hall
  have hvne : (l.filterMap id) ≠ [] := by
    intro hc
    apply hne
    have hc' := congrArg List.length hc
    rw [hlen] at hc'
    exact List.length_eq_zero.mp hc'
  unfold meanQ
  rw [if_neg (by simpa [List.isEmpty_iff] using hvne), hlen]

/-- The metrics block yields nothing exactly on the empty subset. -/
theorem summary_statistics_eq_none_iff (rs : List Row) :
    summary_statistics rs = none ↔ rs = [] := by
  cases rs <;> simp [summary_statistics]

/-! Helper lemmas about the merge -/

/-- Each primary row contributes one merged row per match, at least one. -/
theorem length_emitRow (ppp : List PPPRow) (r : Row) :
    (emitRow ppp r).length = max 1 (pppMatches ppp r).length := by
  unfold emitRow
  cases h : pppMatches ppp r with
  | nil => rfl
  | cons p ps => simp [Nat.max_eq_right (Nat.succ_le_succ (Nat.zero_le _))]

/-- Every merged row a primary row contributes carries that primary row. -/
theorem emitRow_row (ppp : List PPPRow) (r : Row) :
    ∀ m ∈ emitRow ppp r, m.row = r := by
  unfold emitRow
  cases h : pppMatches ppp r with
  | nil => intro m hm; simp at hm; simp [hm]
  | cons p ps =>
    intro m hm
    simp only [List.mem_map] at hm
    obtain ⟨_, _, rfl⟩ := hm
    rfl

/-- Counting a primary row among one row's contribution. -/
theorem countRow_emitRow (ppp : List PPPRow) (r r' : Row) :
    countRow (emitRow ppp r) r' =
      if r = r' then max 1 (pppMatches ppp r).length else 0 := by
  by_cases hrr : r = r'
  · subst hrr
    rw [if_pos rfl, ← length_emitRow]
    unfold countRow
    rw [List.filter_eq_self.mpr fun m hm => by simp [emitRow_row ppp r m hm]]
  · rw [if_neg hrr]
    unfold countRow
    rw [List.filter_eq_nil_iff.mpr fun m hm => by
      simp only [decide_eq_true_eq]
      rw [emitRow_row ppp r m hm]
      exact hrr]
    rfl

/-- If two PPP rows both match a primary row's key, they share a key. -/
theorem keyEq_shared {α : Type} [DecidableEq α] {a b c : Option α}
    (h1 : keyEq a c = true) (h2 : keyEq b c = true) : keyEq a b = true := by
  cases a <;> cases b <;> cases c <;> simp [keyEq] at *
  exact h1.trans h2.symm

/-- With pairwise distinct PPP keys, a primary row has at most one match. -/
theorem pppMatches_length_le_one {ppp : List PPPRow} (h : pppKeysUnique ppp)
    (r : Row) : (pppMatches ppp r).length ≤ 1 := by
  induction ppp with
  | nil => simp [pppMatches]
  | cons p ps ih =>
    unfold pppKeysUnique at h
    rw [List.pairwise_cons] at h
    unfold pppMatches
    rw [List.filter_cons]
    split
    next hp =>
      have hps : ps.filter (fun q => keyEq q.name r.name && keyEq q.year (some (rowYear r))) = [] := by
        rw [List.filter_eq_nil_iff]
        intro q hq hqk
        simp only [Bool.and_eq_true, decide_eq_true_eq] at hp hqk
        exact h.1 q hq (by
          simp only [Bool.and_eq_true]
          exact ⟨keyEq_shared hp.1 hqk.1, keyEq_shared hp.2 hqk.2⟩)
      unfold pppMatches at hps
      simp [pppMatches, hps]
    next =>
      exact ih h.2

/-- Fact: `merge` of the empty primary table is empty. -/
theorem merge_nil (ppp : List PPPRow) : merge [] ppp = [] := rfl

/-- Fact: `merge` emits the head row's contribution first: the join preserves
primary row order. -/
theorem merge_cons (ppp : List PPPRow) (x : Row) (xs : List Row) :
    merge (x :: xs) ppp = emitRow ppp x ++ merge xs ppp := by
  unfold merge
  rw [List.flatMap_cons]

/-- Fact: `countRow` distributes over append. -/
theorem countRow_append (a b : List MRow) (r : Row) :
    countRow (a ++ b) r = countRow a r + countRow b r := by
  unfold countRow
  rw [List.filter_append, List.length_append]

/-! The claims -/

/-- Claim C1: the loaded primary table excludes exactly the rows missing
(null in) a required field — it equals the parsed rows filtered on presence
of `date`, `iso_a3`, `name` and `dollar_price`; a date cell that fails to
parse becomes null and forces exclusion; every retained row has all four
fields present. -/
theorem C1_required_field_filter (csv : List RawRow) :
    load_data csv = (csv.map parseRow).filter (fun r => requiredPresent r) ∧
    (∀ rr : RawRow, to_datetime rr.date = none →
      requiredPresent (parseRow rr) = false) ∧
    (∀ r ∈ load_data csv, r.date.isSome = true ∧ r.iso_a3.isSome = true ∧
      r.name.isSome = true ∧ r.dollar_price.isSome = true) := by
  refine ⟨load_data_eq_filter csv,
    fun rr h => requiredPresent_false_of_date_none rr h, ?_⟩
  intro r hr
  rw [load_data_eq_filter] at hr
  have hreq := (List.mem_filter.mp hr).2
  simp only [requiredPresent, Bool.and_eq_true] at hreq
  exact ⟨hreq.1.1.1, hreq.1.1.2, hreq.1.2, hreq.2⟩

/-- Witness for C1: on a two-row CSV the row with the unparseable date cell
is dropped and the complete row is kept. -/
theorem C1_witness :
    load_data [rawOK, rawBadDate] =
      ([rawOK, rawBadDate].map parseRow).filter (fun r => requiredPresent r) ∧
    (to_datetime rawBadDate.date = none →
      requiredPresent (parseRow rawBadDate) = false) ∧
    load_data [rawOK, rawBadDate] = [parseRow rawOK] ∧
    to_datetime rawBadDate.date = none :=
  ⟨(C1_required_field_filter [rawOK, rawBadDate]).1,
   fun h => (C1_required_field_filter [rawOK, rawBadDate]).2.1 rawBadDate h,
   by decide, by decide⟩

/-- Claim C2: each of the fifteen designated numeric columns is coerced
independently, cell by cell; a failed coercion leaves a null in that column
of that row only, never rejecting the row or raising — except
`dollar_price`, whose coercion failure makes the required-field filter
exclude the row. -/
theorem C2_independent_numeric_coercion (rr : RawRow) :
    ((parseRow rr).local_price = to_numeric rr.local_price ∧
     (parseRow rr).dollar_ex = to_numeric rr.dollar_ex ∧
     (parseRow rr).dollar_price = to_numeric rr.dollar_price ∧
     (parseRow rr).USD_raw = to_numeric rr.USD_raw ∧
     (parseRow rr).EUR_raw = to_numeric rr.EUR_raw ∧
     (parseRow rr).GBP_raw = to_numeric rr.GBP_raw ∧
     (parseRow rr).JPY_raw = to_numeric rr.JPY_raw ∧
     (parseRow rr).CNY_raw = to_numeric rr.CNY_raw ∧
     (parseRow rr).GDP_bigmac = to_numeric rr.GDP_bigmac ∧
     (parseRow rr).adj_price = to_numeric rr.adj_price ∧
     (parseRow rr).USD_adjusted = to_numeric rr.USD_adjusted ∧
     (parseRow rr).EUR_adjusted = to_numeric rr.EUR_adjusted ∧
     (parseRow rr).GBP_adjusted = to_numeric rr.GBP_adjusted ∧
     (parseRow rr).JPY_adjusted = to_numeric rr.JPY_adjusted ∧
     (parseRow rr).CNY_adjusted = to_numeric rr.CNY_adjusted) ∧
    (requiredPresent (parseRow rr) = true → load_data [rr] = [parseRow rr]) ∧
    (to_numeric rr.dollar_price = none → load_data [rr] = []) := by
  refine ⟨⟨rfl, rfl, rfl, rfl, rfl, rfl, rfl, rfl, rfl, rfl, rfl, rfl, rfl,
    rfl, rfl⟩, ?_, ?_⟩
  · intro h
    rw [load_data_eq_filter]
    simp [h]
  · intro h
    rw [load_data_eq_filter]
    have hreq : requiredPresent (parseRow rr) = false := by
      simp [requiredPresent, parseRow, h]
    simp [hreq]

/-- Witness for C2: a row whose `GDP_bigmac` cell fails coercion is kept
with a null in that column only, while a row whose `dollar_price` cell
fails coercion is excluded. -/
theorem C2_witness :
    requiredPresent (parseRow rawBadGDP) = true ∧
    (parseRow rawBadGDP).GDP_bigmac = none ∧
    load_data [rawBadGDP] = [parseRow rawBadGDP] ∧
    to_numeric rawBadPrice.dollar_price = none ∧
    load_data [rawBadPrice] = [] :=
  ⟨by decide, by decide,
   (C2_independent_numeric_coercion rawBadGDP).2.1 (by decide),
   by decide,
   (C2_independent_numeric_coercion rawBadPrice).2.2 (by decide)⟩

/-- Claim C6: the metrics block branches on subset emptiness before
computing any statistic: it produces no metrics exactly when the subset is
empty, so no statistic is ever computed from an empty subset. -/
theorem C6_empty_subset_guard (rs : List Row) :
    summary_statistics rs = none ↔ rs = [] :=
  summary_statistics_eq_none_iff rs

/-- Witness for C6 at the empty subset. -/
theorem C6_witness : summary_statistics ([] : List Row) = none :=
  (C6_empty_subset_guard []).mpr rfl

/-- Claim C9: the cached loader is idempotent and deterministic: a second
call on the same input returns the very table the first call computed, and
that table is `load_data` of the input. -/
theorem C9_loader_idempotent (csv : List RawRow) :
    (load_data_cached (load_data_cached none csv).2 csv).1
      = (load_data_cached none csv).1 ∧
    (load_data_cached none csv).1 = load_data csv := by
  constructor
  · simp [load_data_cached]
  · rfl

/-- Claim C10: an empty country selection skips the country filter
entirely, so the metrics subset is the whole date slice and metrics are
produced (not suppressed) whenever that slice is non-empty. -/
theorem C10_empty_selection (df : List Row) (d : String) (cs : List String) :
    metricsSubset df d [] = filterByDate df d ∧
    (cs = [] → metricsSubset df d cs = filterByDate df d) ∧
    (filterByDate df d ≠ [] →
      ∃ M, summary_statistics (metricsSubset df d []) = some M) := by
  have h0 : metricsSubset df d [] = filterByDate df d := by
    simp [metricsSubset]
  refine ⟨h0, fun hcs => hcs ▸ h0, fun hne => ?_⟩
  rw [h0]
  rcases hs : summary_statistics (filterByDate df d) with _ | M
  · exact absurd ((summary_statistics_eq_none_iff _).mp hs) hne
  · exact ⟨M, rfl⟩

/-- Witness for C10: with one row on the selected date and no countries
selected, the metrics subset is the full date slice and metrics exist. -/
theorem C10_witness :
    metricsSubset usRows "2020-07-01" [] = filterByDate usRows "2020-07-01" ∧
    filterByDate usRows "2020-07-01" ≠ [] ∧
    (∃ M, summary_statistics (metricsSubset usRows "2020-07-01" []) = some M) :=
  ⟨(C10_empty_selection usRows "2020-07-01" []).1, by decide,
   (C10_empty_selection usRows "2020-07-01" []).2.2 (by decide)⟩

/-- Claim C3: the merge is a left outer join on `(name, year)`: every
primary row appears at least once, the output has at least as many rows as
the primary table, exactly as many when PPP keys are unique, and each
primary row occurs once per occurrence in the primary table times the
number of PPP rows sharing its key (so more than once only under duplicate
PPP keys). -/
theorem C3_left_outer_join (df : List Row) (ppp : List PPPRow) :
    (∀ r ∈ df, ∃ m ∈ merge df ppp, m.row = r) ∧
    df.length ≤ (merge df ppp).length ∧
    (pppKeysUnique ppp → (merge df ppp).length = df.length) ∧
    (∀ r : Row, countRow (merge df ppp) r
      = df.count r * max 1 (pppMatches ppp r).length) := by
  refine ⟨?_, ?_, ?_, ?_⟩
  · induction df with
    | nil => intro r hr; cases hr
    | cons x xs ih =>
      intro r hr
      rcases List.mem_cons.mp hr with rfl | hmem
      · have hne : emitRow ppp r ≠ [] := by
          intro hc
          have hl := congrArg List.length hc
          rw [length_emitRow] at hl
          simp at hl
        obtain ⟨m, hm⟩ := List.exists_mem_of_ne_nil _ hne
        exact ⟨m, by rw [merge_cons]; exact List.mem_append_left _ hm,
          emitRow_row ppp r m hm⟩
      · obtain ⟨m, hm, hrow⟩ := ih r hmem
        exact ⟨m, by rw [merge_cons]; exact List.mem_append_right _ hm, hrow⟩
  · induction df with
    | nil => simp [merge]
    | cons x xs ih =>
      rw [merge_cons, List.length_append, List.length_cons]
      have h1 : 1 ≤ (emitRow ppp x).length := by
        rw [length_emitRow]; exact Nat.le_max_left _ _
      omega
  · intro hu
    induction df with
    | nil => rfl
    | cons x xs ih =>
      rw [merge_cons, List.length_append, ih, List.length_cons]
      have h1 : (emitRow ppp x).length = 1 := by
        rw [length_emitRow]
        exact Nat.max_eq_left (pppMatches_length_le_one hu x)
      omega
  · intro r
    induction df with
    | nil => simp [merge, countRow]
    | cons x xs ih =>
      rw [merge_cons, countRow_append, ih, countRow_emitRow, List.count_cons]
      by_cases hxr : x = r
      · subst hxr
        simp only [if_pos rfl, beq_self_eq_true, if_true]
        ring
      · have hbeq : (x == r) = false := beq_eq_false_iff_ne.mpr hxr
        simp [hxr, hbeq]

/-- Witness for C3: one primary row, a unique-keyed PPP table with one
matching row: the merged table has exactly one row and the count formula
gives one occurrence. -/
theorem C3_witness :
    pppKeysUnique pppOK ∧
    (merge usRows pppOK).length = usRows.length ∧
    countRow (merge usRows pppOK)
        (mkRow "United States" ⟨2020, 7, 1⟩ (some 4) none none none)
      = usRows.count (mkRow "United States" ⟨2020, 7, 1⟩ (some 4) none none none)
        * max 1 (pppMatches pppOK
            (mkRow "United States" ⟨2020, 7, 1⟩ (some 4) none none none)).length :=
  ⟨by decide, (C3_left_outer_join usRows pppOK).2.2.1 (by decide),
   (C3_left_outer_join usRows pppOK).2.2.2 _⟩

/-- Claim C8: no record is mutated by a user interaction: the loaded and
merged tables come out of the interaction unchanged, the rounded
left-column view is a fresh list built from a copy of the date slice (the
column assignment touches only the copy), and the metrics subset is a
sublist of the loaded table made of its original records. -/
theorem C8_tables_not_mutated (df : List Row) (merged : List MRow)
    (d : String) (cs : List String) :
    (interaction df merged d cs).1 = (df, merged) ∧
    (interaction df merged d cs).2.1 = roundPrices (filterByDate df d) ∧
    (metricsSubset df d cs).Sublist df ∧
    (∀ r ∈ (interaction df merged d cs).2.2.1, r ∈ df) := by
  have hsub : (metricsSubset df d cs).Sublist df := by
    unfold metricsSubset
    dsimp only
    split
    · exact List.filter_sublist df
    · exact (List.filter_sublist _).trans (List.filter_sublist df)
  exact ⟨rfl, rfl, hsub, fun r hr => hsub.subset hr⟩

/-- Witness for C8 at a concrete session state and interaction. -/
theorem C8_witness :
    (interaction usRows (merge usRows pppOK) "2020-07-01" ["United States"]).1
      = (usRows, merge usRows pppOK) ∧
    (metricsSubset usRows "2020-07-01" ["United States"]).Sublist usRows :=
  ⟨(C8_tables_not_mutated usRows (merge usRows pppOK) "2020-07-01"
      ["United States"]).1,
   (C8_tables_not_mutated usRows (merge usRows pppOK) "2020-07-01"
      ["United States"]).2.2.1⟩

/-- Counterexample to claim C7 as stated: the loader keeps a row whose
`iso_a3` is the two-character string US — no code path validates the code
length. -/
theorem C7_counterexample :
    load_data [rawShortIso] = [parseRow rawShortIso] ∧
    (parseRow rawShortIso).iso_a3 = some "US" ∧
    ¬("US".length = 3) := by
  refine ⟨by decide, by decide, by decide⟩

/-- Claim C7 (amended): every row of the loaded primary table has a valid
calendar date, a present (non-null) `iso_a3` — whose length the loader does
not validate — a non-empty country name, and a present numeric
`dollar_price`. -/
theorem C7_loaded_row_invariant (csv : List RawRow) :
    ∀ r ∈ load_data csv,
      (∃ d, r.date = some d ∧ dateValid d = true) ∧
      r.iso_a3.isSome = true ∧
      (∃ s, r.name = some s ∧ s ≠ "") ∧
      r.dollar_price.isSome = true := by
  intro r hr
  rw [load_data_eq_filter] at hr
  obtain ⟨hmem, hreq⟩ := List.mem_filter.mp hr
  obtain ⟨rr, hrr, rfl⟩ := List.mem_map.mp hmem
  simp only [requiredPresent, Bool.and_eq_true] at hreq
  obtain ⟨⟨⟨hd, hiso⟩, hnm⟩, hdp⟩ := hreq
  refine ⟨?_, hiso, ?_, hdp⟩
  · rcases hdd : (parseRow rr).date with _ | d
    · rw [hdd] at hd; simp at hd
    · refine ⟨d, rfl, ?_⟩
      have hcv : to_datetime rr.date = some d := hdd
      cases hcell : rr.date with
      | na => rw [hcell] at hcv; exact absurd hcv (by simp [to_datetime])
      | str s =>
        rw [hcell] at hcv
        exact parseDate_valid hcv
  · rcases hnn : (parseRow rr).name with _ | s
    · rw [hnn] at hnm; simp at hnm
    · exact ⟨s, rfl, readStr_ne_empty hnn⟩

/-- Witness for the amended C7 at a fully-present row. -/
theorem C7_witness :
    parseRow rawOK ∈ load_data [rawOK] ∧
    ((∃ d, (parseRow rawOK).date = some d ∧ dateValid d = true) ∧
     (parseRow rawOK).iso_a3.isSome = true ∧
     (∃ s, (parseRow rawOK).name = some s ∧ s ≠ "") ∧
     (parseRow rawOK).dollar_price.isSome = true) :=
  ⟨by decide, C7_loaded_row_invariant [rawOK] (parseRow rawOK) (by decide)⟩

/-- Claim C4: on a non-empty subset whose dollar prices are all present,
the metrics block returns the arithmetic mean of `dollar_price` as the
average price, and the most-expensive country and price come from the first
row attaining the maximum price — ties broken by first occurrence in subset
order. -/
theorem C4_mean_and_argmax (rs : List Row) (hne : rs ≠ [])
    (hall : ∀ r ∈ rs, (r.dollar_price).isSome = true) :
    ∃ M, summary_statistics rs = some M ∧
      M.avg_price = some ((rs.filterMap fun r => r.dollar_price).sum / rs.length) ∧
      ∃ q pre post r₀, rs = pre ++ r₀ :: post ∧ r₀.dollar_price = some q ∧
        M.most_expensive = r₀.name ∧ M.most_expensive_price = some q ∧
        (∀ x ∈ rs, ∀ p, x.dollar_price = some p → p ≤ q) ∧
        (∀ x ∈ pre, ∀ p, x.dollar_price = some p → p < q) := by
  have hempty : rs.isEmpty = false := by
    cases rs
    · exact absurd rfl hne
    · rfl
  rcases hargm : argmaxQ (fun r => r.dollar_price) rs with _ | r₀
  · exfalso
    rcases hx : rs with _ | ⟨x, xs⟩
    · exact hne hx
    · have hxp := hall x (hx ▸ List.mem_cons_self x xs)
      rcases hfx : x.dollar_price with _ | q
      · rw [hfx] at hxp; simp at hxp
      · rw [hx] at hargm
        exact argmaxQ_cons_some_ne_none hfx hargm
  · obtain ⟨q, pre, post, hsplit, hq, hub, hlt⟩ :=
      argmaxQ_spec (fun r => r.dollar_price) rs r₀ hargm
    refine ⟨{ avg_price := meanQ (rs.map fun r => r.dollar_price)
              avg_gdp := meanQ (rs.map fun r => r.GDP_bigmac)
              most_expensive :=
                (argmaxQ (fun r => r.dollar_price) rs).bind fun r => r.name
              most_expensive_price := maxQ (fun r => r.dollar_price) rs },
      ?_, ?_, q, pre, post, r₀, hsplit, hq, ?_, ?_, hub, hlt⟩
    · unfold summary_statistics
      rw [hempty]
      rfl
    · show meanQ (rs.map fun r => r.dollar_price) = _
      rw [meanQ_all_isSome]
      · rw [List.length_map]
        congr 1
        rw [List.filterMap_map]
        rfl
      · intro hc
        exact hne (List.map_eq_nil_iff.mp hc)
      · intro x hx
        obtain ⟨r, hr, rfl⟩ := List.mem_map.mp hx
        exact hall r hr
    · show (argmaxQ (fun r => r.dollar_price) rs).bind (fun r => r.name) = r₀.name
      rw [hargm]
      rfl
    · show maxQ (fun r => r.dollar_price) rs = some q
      rw [maxQ_eq_bind_argmaxQ, hargm]
      simpa using hq

/-- Witness for C4: the spec's aggregate example — three rows of one date
with dollar prices 3, 4, 5 give mean price 4 and most-expensive price 5 in
the third country. -/
theorem C4_witness :
    (c4rows ≠ [] ∧ ∀ r ∈ c4rows, (r.dollar_price).isSome = true) ∧
    (∃ M, summary_statistics c4rows = some M ∧
      M.avg_price = some ((c4rows.filterMap fun r => r.dollar_price).sum / c4rows.length) ∧
      ∃ q pre post r₀, c4rows = pre ++ r₀ :: post ∧ r₀.dollar_price = some q ∧
        M.most_expensive = r₀.name ∧ M.most_expensive_price = some q ∧
        (∀ x ∈ c4rows, ∀ p, x.dollar_price = some p → p ≤ q) ∧
        (∀ x ∈ pre, ∀ p, x.dollar_price = some p → p < q)) ∧
    summary_statistics c4rows =
      some ⟨some 4, none, some "CountryC", some 5⟩ := by
  refine ⟨⟨by decide, by decide⟩,
    C4_mean_and_argmax c4rows (by decide) (by decide), ?_⟩
  simp [summary_statistics, c4rows, mkRow, meanQ, argmaxQ, maxQ]
  norm_num

/-- Claim C5 (modelled from the spec, the gap metric being absent from
src/app.py): on a non-empty subset where some row has both index operands,
`summary_statistics` returns a `Metrics` value whose adjustment-gap fields
name the country maximizing the absolute difference of
`usd_adjusted_index` and `usd_raw_index` and carry that gap, ties broken by
first occurrence in subset order. -/
theorem C5_adjustment_gap (rs : List Row) (hne : rs ≠ [])
    (hgap : ∃ r ∈ rs, (adjustmentGap r).isSome = true) :
    ∃ M, summary_statistics_spec rs = some M ∧
      ∃ g pre post r₀, rs = pre ++ r₀ :: post ∧ adjustmentGap r₀ = some g ∧
        (∀ a b, r₀.USD_adjusted = some a → r₀.USD_raw = some b →
          g = |a - b|) ∧
        M.max_adjustment_gap_country = r₀.name ∧
        M.max_adjustment_gap_value = some g ∧
        (∀ x ∈ rs, ∀ p, adjustmentGap x = some p → p ≤ g) ∧
        (∀ x ∈ pre, ∀ p, adjustmentGap x = some p → p < g) := by
  have hempty : rs.isEmpty = false := by
    cases rs
    · exact absurd rfl hne
    · rfl
  rcases hargm : argmaxQ adjustmentGap rs with _ | r₀
  · exfalso
    obtain ⟨r, hr, hrs⟩ := hgap
    have := (argmaxQ_eq_none_iff adjustmentGap rs).mp hargm r hr
    rw [this] at hrs
    simp at hrs
  · obtain ⟨g, pre, post, hsplit, hg, hub, hlt⟩ :=
      argmaxQ_spec adjustmentGap rs r₀ hargm
    refine ⟨{ mean_price := meanQ (rs.map fun r => r.dollar_price)
              mean_gdp_per_capita := meanQ (rs.map fun r => r.GDP_bigmac)
              max_price_country :=
                (argmaxQ (fun r => r.dollar_price) rs).bind fun r => r.name
              max_price_value := maxQ (fun r => r.dollar_price) rs
              max_adjustment_gap_country :=
                (argmaxQ adjustmentGap rs).bind fun r => r.name
              max_adjustment_gap_value := maxQ adjustmentGap rs },
      ?_, g, pre, post, r₀, hsplit, hg, ?_, ?_, ?_, hub, hlt⟩
    · unfold summary_statistics_spec
      rw [hempty]
      rfl
    · intro a b ha hb
      unfold adjustmentGap at hg
      rw [ha, hb] at hg
      exact (Option.some.inj hg).symm
    · show (argmaxQ adjustmentGap rs).bind (fun r => r.name) = r₀.name
      rw [hargm]
      rfl
    · show maxQ adjustmentGap rs = some g
      rw [maxQ_eq_bind_argmaxQ, hargm]
      simpa using hg

/-- Witness for C5: the spec's adjustment-gap example — rows with raw 100
and adjusted 130, and raw 100 and adjusted 110, give gap 30 for the first
country. -/
theorem C5_witness :
    (c5rows ≠ [] ∧ ∃ r ∈ c5rows, (adjustmentGap r).isSome = true) ∧
    (∃ M, summary_statistics_spec c5rows = some M ∧
      ∃ g pre post r₀, c5rows = pre ++ r₀ :: post ∧ adjustmentGap r₀ = some g ∧
        (∀ a b, r₀.USD_adjusted = some a → r₀.USD_raw = some b →
          g = |a - b|) ∧
        M.max_adjustment_gap_country = r₀.name ∧
        M.max_adjustment_gap_value = some g ∧
        (∀ x ∈ c5rows, ∀ p, adjustmentGap x = some p → p ≤ g) ∧
        (∀ x ∈ pre, ∀ p, adjustmentGap x = some p → p < g)) ∧
    (summary_statistics_spec c5rows).map
        (fun M => (M.max_adjustment_gap_country, M.max_adjustment_gap_value))
      = some (some "GapCountryA", some 30) := by
  refine ⟨⟨by decide, ?_⟩,
    C5_adjustment_gap c5rows (by decide) ?_, ?_⟩
  · refine ⟨mkRow "GapCountryA" ⟨2024, 1, 1⟩ (some 1) none (some 100) (some 130),
      by decide, ?_⟩
    simp [adjustmentGap, mkRow]
  · refine ⟨mkRow "GapCountryA" ⟨2024, 1, 1⟩ (some 1) none (some 100) (some 130),
      by decide, ?_⟩
    simp [adjustmentGap, mkRow]
  · simp [summary_statistics_spec, c5rows, mkRow, adjustmentGap, argmaxQ, maxQ]
    norm_num

end BigMac
